import Mathlib


/-!
Verification of the process-orchestrator core against its specification.

The Python sources under `src/orchestrator` are shallowly embedded:
pure functions become Lean functions, stateful methods become explicit
state-passing functions, and external effects (the filesystem, `fork`,
`poll`, resource counters) are supplied by explicit environment records
so every definition is executable.  Machine floats are modelled as
rationals, Python lists as `List`, Python dicts keyed by file name as
association lists with unique keys.
-/

/-! ## String utilities (`os.path` helpers)

`basename` keeps the part of the path after the last slash and
`osJoin a b` mirrors `os.path.join` for the two-argument case used by
the code: an absolute second component wins, otherwise the components
are joined with a single separator. -/

def basename (p : String) : String :=
  String.mk ((p.data.reverse.takeWhile (fun c => c ≠ '/')).reverse)

def osJoin (a b : String) : String :=
  if b.data.head? = some '/' then b
  else if a.data = [] ∨ a.data.getLast? = some '/' then a ++ b
  else a ++ "/" ++ b

/-! ## Python `str.format` (used by `ProcessManager.build_command`)

`src/orchestrator/process_manager.py` line 200 expands each flag with
`flag.format(input_file=..., output_file=...)`.  `pyFmt` embeds the
behaviour of `str.format` for this call: `\x7b\x7b` and `\x7d\x7d`
become single braces, the replacement fields `\x7binput_file\x7d` and
`\x7boutput_file\x7d` expand to the given values, any other field name
raises `KeyError`, and an unmatched brace raises `ValueError`.  Both
error kinds are collapsed into `Except.error`.  (No flag considered
here uses a conversion or format-spec suffix; a field carrying one is
treated as an unknown field.)

The recursion is bounded by a fuel argument so that the definition is
structural; each step consumes at least one character of the remaining
text (`splitField_length`), so fuel equal to the initial length never
runs out. -/

def splitField : List Char → Option (List Char × List Char)
  | [] => none
  | c :: rest =>
    if c = '\x7d' then some ([], rest)
    else (splitField rest).map (fun p => (c :: p.1, p.2))

def pyFmt (input output : List Char) : Nat → List Char → Except Unit (List Char)
  | _, [] => .ok []
  | 0, _ :: _ => .error ()
  | fuel + 1, c :: cs =>
    if c = '\x7d' then
      match cs with
      | [] => .error ()
      | d :: cs2 =>
        if d = '\x7d' then (pyFmt input output fuel cs2).map (fun t => '\x7d' :: t)
        else .error ()
    else if c = '\x7b' then
      match cs with
      | [] => .error ()
      | d :: cs2 =>
        if d = '\x7b' then (pyFmt input output fuel cs2).map (fun t => '\x7b' :: t)
        else
          match splitField (d :: cs2) with
          | none => .error ()
          | some (fld, rest) =>
            if fld = "input_file".data then
              (pyFmt input output fuel rest).map (fun t => input ++ t)
            else if fld = "output_file".data then
              (pyFmt input output fuel rest).map (fun t => output ++ t)
            else .error ()
    else (pyFmt input output fuel cs).map (fun t => c :: t)

def pyFormat (flag input output : String) : Except Unit String :=
  (pyFmt input.data output.data flag.data.length flag.data).map String.mk

/-! ## Configuration records (from `src/orchestrator/config.py`) -/

structure BinaryConfig where
  path : String
  flags : List String
deriving Repr, DecidableEq

structure DirectoryConfig where
  output_dir : String
  output_suffix : String
deriving Repr, DecidableEq

structure Config where
  binary : BinaryConfig
  directories : DirectoryConfig
deriving Repr, DecidableEq

/-- Embeds `ProcessManager.build_command` (process_manager.py lines 182-206):
derive the output path by joining the output directory with the input
basename plus suffix, then emit the binary path followed by each flag
expanded with `str.format`.  A `KeyError`/`ValueError` from `format`
propagates, which `Except` makes explicit. -/
def build_command (cfg : Config) (input_file : String) : Except Unit (List String) :=
  let output_file :=
    osJoin cfg.directories.output_dir (basename input_file ++ cfg.directories.output_suffix)
  (cfg.binary.flags.mapM (fun fl => pyFormat fl input_file output_file)).map
    (fun fs => cfg.binary.path :: fs)

def containsSub (pat s : String) : Bool :=
  s.data.tails.any (fun t => pat.data.isPrefixOf t)

/-- A flag "contains a placeholder" when the literal text
`\x7binput_file\x7d` or `\x7boutput_file\x7d` occurs in it. -/
def hasPlaceholder (s : String) : Bool :=
  containsSub "\x7binput_file\x7d" s || containsSub "\x7boutput_file\x7d" s

/-! ## The needs_shell command builder (spec §4.1)

The repository's tests unpack `command, use_shell = manager.build_command(...)`
(tests/unit/test_process_manager.py line 76), but the builder variant
that computes the shell flag is not among the sources under
`src/orchestrator`; only `build_command` returning a bare argv is.  The
missing variant is therefore modelled from the spec. -/

/-- Python `str.replace` restricted to a non-empty pattern: scan left to
right, replacing non-overlapping occurrences.  Fuel-bounded structural
recursion; each step consumes at least one character, so fuel equal to
the initial length suffices. -/
def replaceChars (pat rep : List Char) : Nat → List Char → List Char
  | _, [] => []
  | 0, l => l
  | fuel + 1, c :: cs =>
    if pat ≠ [] ∧ pat.isPrefixOf (c :: cs) then
      rep ++ replaceChars pat rep fuel ((c :: cs).drop pat.length)
    else c :: replaceChars pat rep fuel cs

def pyReplace (s pat rep : String) : String :=
  if pat.data = [] then s
  else String.mk (replaceChars pat.data rep.data s.data.length s.data)

/-- The shell operator tokens of spec §4.1. -/
def shellOps : List String := [">", ">>", "|", "<"]

/-- The JobSpec fields consumed by the Command Builder (spec §3). -/
structure JobSpec where
  binary_path : String
  flags : List String
  output_dir : String
  output_suffix : String
deriving Repr, DecidableEq

/-- A fully-expanded flag: both placeholder literals replaced by the
input path and the derived output path. -/
def expandFlag (js : JobSpec) (input_file fl : String) : String :=
  let output_file := osJoin js.output_dir (basename input_file ++ js.output_suffix)
  pyReplace (pyReplace fl "\x7binput_file\x7d" input_file) "\x7boutput_file\x7d" output_file

/-- Modelled from the spec: the `build(job_spec, input_file) → (argv,
needs_shell)` operation of §4.1, absent from `src/orchestrator` (only
its unit test is present).  Argv is the binary path followed by the
expanded flags; `needs_shell` is set exactly when some fully-expanded
flag equals one of the shell operator tokens as a whole token. -/
def buildSpec (js : JobSpec) (input_file : String) : List String × Bool :=
  let expanded := js.flags.map (expandFlag js input_file)
  (js.binary_path :: expanded, expanded.any (fun t => decide (t ∈ shellOps)))

/-! ## The Child Supervisor and Work Loop (process_manager.py)

`ProcessManager` state is embedded explicitly.  A child process is
identified by the pid handed out at fork time; its interaction with the
OS is mediated by an environment `Env`:

* `fileExists f` — result of `os.path.isfile(f)`;
* `forkOk n` — whether the `n`-th `subprocess.Popen` call succeeds or
  raises (`n` is the model's fork-attempt counter, also used as pid);
* `life pid` — how many `poll()` calls return `None` (still running)
  before the child is observed terminated;
* `exit_code pid` — the return code `poll()` reports once terminated
  (a dead process reports the same code on every later `poll()`);
* `canStart k` — result of the `k`-th `can_start_new_process()` query
  (the admission controller is modelled separately below).

The resource monitor's `running_processes` registry (`running` below,
the list of registered file names) is declared as a dict at
resource_monitor.py line 55, but `process_manager.py` calls the set
methods `add` (line 266) and `remove` (lines 178 and 334) on it, which
a dict does not have.  Both calls therefore raise `AttributeError` in
the source: the `add` is inside the `try` of lines 255-267 and is
caught at line 268 (so every successful fork ends with the file in
`failed_files` and the live child left in `self.processes`), while the
`remove` at line 334 is uncaught and aborts `run()` the first time a
finished child is reaped.  The model reproduces this: `running` is
never written (it stays empty), and the registry operations surface as
the caught and uncaught `AttributeError` effects just described.
Membership tests on the registry (`in` at line 359) are ordinary dict
key tests and work.  `forks` is a ghost log of fork events (one entry
per child actually created by `subprocess.Popen`) used to state
fork-count properties; the code does not keep it. -/

structure Child where
  pid : Nat
  polls : Nat
deriving Repr, DecidableEq

structure SysState where
  processes : List (String × Child)
  running : List String
  completed : List String
  failed : List String
  retry_counts : List (String × Nat)
  nextPid : Nat
  tick : Nat
  forks : List String
deriving Repr, DecidableEq

structure Env where
  fileExists : String → Bool
  forkOk : Nat → Bool
  life : Nat → Nat
  exit_code : Nat → Int
  canStart : Nat → Bool

def SysState.names (st : SysState) : List String := st.processes.map Prod.fst

def initState : SysState := ⟨[], [], [], [], [], 0, 0, []⟩

/-- The retry bound `self.max_retries = 3` (process_manager.py line 31). -/
def max_retries : Nat := 3

def lookupCount (m : List (String × Nat)) (f : String) : Nat :=
  (((m.find? (fun p => p.1 = f)).map Prod.snd).getD 0)

def setCount (m : List (String × Nat)) (f : String) (n : Nat) : List (String × Nat) :=
  if (m.find? (fun p => p.1 = f)).isSome then
    m.map (fun p => if p.1 = f then (f, n) else p)
  else m ++ [(f, n)]

/-- The supervisor state after a `subprocess.Popen` call that
succeeded: the child is recorded in the active map (line 265), then
`running_processes.add` at line 266 raises `AttributeError` (dict, no
`add`), which the `except` at line 268 catches, appending the file to
`failed_files` and making `start_process` return `None`.  The registry
is never written; the live child stays in the active map. -/
def forkAttrState (st : SysState) (f : String) : SysState :=
  { st with processes := st.processes ++ [(f, ⟨st.nextPid, 0⟩)],
            failed := st.failed ++ [f],
            nextPid := st.nextPid + 1,
            forks := st.forks ++ [f] }

/-- The supervisor state after `subprocess.Popen` itself raised for `f`
(process_manager.py lines 268-273): the file goes to `failed_files`
and nothing else is touched. -/
def forkFailState (st : SysState) (f : String) : SysState :=
  { st with failed := st.failed ++ [f], nextPid := st.nextPid + 1 }

/-- Embeds `ProcessManager.start_process` (lines 218-273).  Returns
`none` for every non-raising call — on the early rejections, on a
`Popen` failure, and also on a successful fork, where the registry
`add` at line 266 raises `AttributeError` inside the `try` and the
handler at lines 268-273 appends the file to `failed_files` and
returns `None` (the child itself stays in the active map,
`forkAttrState`).  The returned handle slot keeps the source's
`Optional[Popen]` type even though no branch can populate it
(`start_process_none`).  The only escaping exception is
`FileNotFoundError` for a missing input (line 242), carrying the
raise-time state.  Command construction and `os.makedirs` (lines
244-249) touch no supervisor state and are elided here; a malformed
flag template would raise in the builder, which the builder claims
cover separately. -/
def start_process (env : Env) (st : SysState) (f : String) :
    Except (String × SysState) (Option Nat × SysState) :=
  if f ∈ st.names then .ok (none, st)
  else if f ∈ st.completed then .ok (none, st)
  else if f ∈ st.failed then .ok (none, st)
  else if env.fileExists f = false then .error (f, st)
  else if env.forkOk st.nextPid then .ok (none, forkAttrState st f)
  else .ok (none, forkFailState st f)

/-- Embeds `ProcessManager._check_process` (lines 275-321).  Here `none` means the
entry stays in the active map (still running, or failed with retries
left — the code keeps the dead child and re-polls it); `some true` /
`some false` mean completed / terminally failed.  The returned child
records one more `poll()` call. -/
def check_process (env : Env) (st : SysState) (f : String) (c : Child) :
    Option Bool × Child × SysState :=
  if c.polls < env.life c.pid then (none, ⟨c.pid, c.polls + 1⟩, st)
  else if env.exit_code c.pid = 0 then
    (some true, c, { st with completed := st.completed ++ [f] })
  else
    let n := lookupCount st.retry_counts f + 1
    let st1 := { st with retry_counts := setCount st.retry_counts f n }
    if max_retries ≤ n then
      (some false, c, { st1 with failed := st1.failed ++ [f] })
    else (none, c, st1)

/-- The iteration inside `ProcessManager._check_processes` (lines
323-330): visit every active entry in order, threading the state, and
collect the finished ones. -/
def check_all (env : Env) :
    List (String × Child) → SysState → List (String × Child) × List String × SysState
  | [], st => ([], [], st)
  | (f, c) :: rest, st =>
    let r := check_process env st f c
    let out := check_all env rest r.2.2
    match r.1 with
    | some _ => ((f, r.2.1) :: out.1, f :: out.2.1, out.2.2)
    | none => ((f, r.2.1) :: out.1, out.2.1, out.2.2)

/-- Embeds `ProcessManager._check_processes` (lines 323-334): after the
sweep, the loop at lines 332-334 deletes each finished entry from the
active map and then calls `running_processes.remove` on the dict,
which raises `AttributeError` — uncaught, so the method (and `run()`)
aborts on the FIRST finished entry, right after its `del
self.processes[...]`.  With no finished entry the method returns
normally with the swept active map. -/
def check_processes (env : Env) (st : SysState) : Except SysState SysState :=
  let out := check_all env st.processes st
  match out.2.1 with
  | [] => .ok { out.2.2 with processes := out.1 }
  | f0 :: _ =>
    .error { out.2.2 with processes := out.1.filter (fun p => decide (p.1 ≠ f0)) }

/-- The inner admission loop of `ProcessManager.run` (lines 353-367),
phrased over the still-unvisited suffix of the manifest (`pending`
stands for `input_files[current_index:]`; every branch of the Python
loop body increments `current_index`).  Each `can_start_new_process()`
call consumes one admission tick. -/
def start_loop (env : Env) : List String → SysState → Except (String × SysState) (List String × SysState)
  | [], st => .ok ([], st)
  | f :: rest, st =>
    let st0 := { st with tick := st.tick + 1 }
    if env.canStart st.tick then
      if f ∉ st0.names ∧ f ∉ st0.completed ∧ f ∉ st0.failed ∧ f ∉ st0.running then
        match start_process env st0 f with
        | .error e => .error e
        | .ok (_, st1) => start_loop env rest st1
      else start_loop env rest st0
    else .ok (f :: rest, st0)

/-- The exceptions that can escape `ProcessManager.run`: the
`FileNotFoundError` of `start_process` (line 242) and the
`AttributeError` of the registry `remove` (line 334). -/
inductive PyErr where
  | fileNotFound (f : String)
  | attrError
deriving Repr, DecidableEq

/-- The outer loop of `ProcessManager.run` (lines 336-379), with a fuel
bound on the number of outer iterations: `none` means the fuel ran out
(the Python loop would still be spinning), `some (.error ...)` means an
exception escaped `run` (with the state at the raise), and
`some (.ok (code, st))` is a normal return with exit code `code`. -/
def run_loop (env : Env) : Nat → List String → SysState → Option (Except (PyErr × SysState) (Int × SysState))
  | 0, pending, st =>
    if pending = [] ∧ st.processes = [] then
      some (.ok (if st.failed = [] then 0 else 1, st))
    else none
  | fuel + 1, pending, st =>
    if pending = [] ∧ st.processes = [] then
      some (.ok (if st.failed = [] then 0 else 1, st))
    else
      match check_processes env st with
      | .error stc => some (.error (.attrError, stc))
      | .ok st1 =>
        match start_loop env pending st1 with
        | .error e => some (.error (.fileNotFound e.1, e.2))
        | .ok (pending1, st2) => run_loop env fuel pending1 st2

/-- Runs `ProcessManager.run` from a fresh supervisor state. -/
def pm_run (env : Env) (fuel : Nat) (manifest : List String) :
    Option (Except (PyErr × SysState) (Int × SysState)) :=
  run_loop env fuel manifest initState

/-! ## Invariants of the supervisor state -/

/-- A file is accounted for: active, completed, or failed. -/
def settled (st : SysState) (f : String) : Prop :=
  f ∈ st.names ∨ f ∈ st.completed ∨ f ∈ st.failed

/-- Invariant maintained by the work loop: the monitor registry is
never successfully written (every `add` raises), every forked file was
put into `failed_files` by the caught registry `AttributeError`, and no
file is ever forked twice. -/
structure SupInv (st : SysState) : Prop where
  runEmpty : st.running = []
  forkFailed : ∀ f ∈ st.forks, f ∈ st.failed
  countLe : ∀ f, st.forks.count f ≤ 1

/-- Aggregate facts established by one pass of the inner admission loop. -/
structure StartLoopFacts (pending : List String) (st : SysState)
    (pending1 : List String) (st1 : SysState) : Prop where
  inv : SupInv st1
  settled_mono : ∀ g, settled st g → settled st1 g
  names_mono : ∀ g ∈ st.names, g ∈ st1.names
  pending_cov : ∀ g ∈ pending, g ∈ pending1 ∨ settled st1 g
  comp_eq : st1.completed = st.completed
  forks_mono : ∀ g ∈ st.forks, g ∈ st1.forks
  forks_new : ∀ g ∈ st1.forks, g ∈ st.forks ∨ g ∈ pending
  fail_new : ∀ g ∈ st1.failed, g ∈ st.failed ∨ g ∈ pending

/-! ## The Calibrator (`ProcessManager._calibrate_resource_usage`)

The calibration routine is driven by a handful of external outcomes,
collected in `CalibEnv`:

* `fileExists`, `forkOk` — as in `Env`, for the probe's `start_process`;
* `diedEarly` — whether `psutil` reports the probe gone during the
  stabilization loop (lines 82-84);
* `measureOk` — whether the measurement block (lines 88-163) succeeds;
* `waitTimeout` — whether `process.wait(timeout=5)` times out, in
  which case the probe would be force-killed (lines 169-172).

Only `fileExists` and `forkOk` matter in the source as given: because
`start_process` always returns `None` (the registry `add` raises, see
above), calibration always takes the `if not process` early return at
lines 59-61, and everything from line 63 on — the stabilization loop,
the threshold update at lines 156-162, and the terminate/cleanup block
at lines 167-180 — is dead code. -/

structure CalibEnv where
  fileExists : Bool
  forkOk : Bool
  diedEarly : Bool
  measureOk : Bool
  waitTimeout : Bool
deriving Repr, DecidableEq

def calibEnvToEnv (ce : CalibEnv) : Env :=
  ⟨fun _ => ce.fileExists, fun _ => ce.forkOk, fun _ => 0, fun _ => 1, fun _ => true⟩

structure CalibResult where
  state : SysState
  probeTerminated : Bool
  probeKilled : Bool
deriving Repr, DecidableEq

/-- Embeds `ProcessManager._calibrate_resource_usage` (lines 49-180),
its effect on supervisor/sampler state.  The first arm is the only one
a run of the source can take: `start_process` never returns a process
handle (`start_process_none`), so calibration always exits through the
`if not process` early return at lines 59-61 — with the probe's file
in `failed_files`, and, when the fork itself succeeded, the live probe
child still in the active map; the probe is never terminated.  The
remaining arm transcribes the dynamically unreachable lines 63-180
(early return when the probe dies before stabilizing; otherwise
terminate, force-kill on wait timeout, and removal from the active
map, the registry and the completed list). -/
def calibrate (ce : CalibEnv) (st : SysState) (f : String) :
    Except (String × SysState) CalibResult :=
  match start_process (calibEnvToEnv ce) st f with
  | .error e => .error e
  | .ok (none, st1) => .ok ⟨st1, false, false⟩
  | .ok (some _, st1) =>
    if ce.diedEarly then .ok ⟨st1, false, false⟩
    else
      .ok ⟨{ st1 with
          processes := st1.processes.filter (fun p => decide (p.1 ≠ f)),
          running := st1.running.erase f,
          completed := st1.completed.erase f },
        true, ce.waitTimeout⟩

/-! ## The Resource Monitor (`src/orchestrator/resource_monitor.py`)

Thresholds and metrics are percentages, modelled as rationals (the
Python floats' `0.8`, `0.9`, `0.7` literals become `4/5`, `9/10`,
`7/10`; Python's `int()` on these non-negative quantities is the
floor).  `active` stands for `len(self.running_processes)`; dropping a
dead registration (lines 106-111) shrinks it.  The monitor is
constructed by `ProcessManager.__init__` with the default
`throttle_threshold=0.9`, `recovery_threshold=0.7`. -/

structure Metrics where
  cpu_percent : ℚ
  memory_percent : ℚ
  disk_percent : ℚ
deriving Repr, DecidableEq

structure Monitor where
  cpu_max : ℚ
  memory_max : ℚ
  disk_max : ℚ
  max_processes : ℕ
  throttle_threshold : ℚ
  recovery_threshold : ℚ
  throttled : Bool
  original_max_processes : ℕ
  active : ℕ
deriving Repr, DecidableEq

/-- Embeds `ResourceMonitor.__init__` (lines 26-57): `throttled = False` and
`original_max_processes` is the initial `max_processes` threshold. -/
def initMonitor (cpu memory disk : ℚ) (mp : ℕ) : Monitor :=
  ⟨cpu, memory, disk, mp, 9/10, 7/10, false, mp, 0⟩

/-- The resource-usage ratio of lines 82-86. -/
def pressure (mon : Monitor) (met : Metrics) : ℚ :=
  max (met.cpu_percent / mon.cpu_max)
    (max (met.memory_percent / mon.memory_max) (met.disk_percent / mon.disk_max))

/-- Embeds `ResourceMonitor._apply_throttling` (lines 113-140). -/
def apply_throttling (mon : Monitor) (met : Metrics) : Monitor :=
  let cpu_ratio := mon.cpu_max / max met.cpu_percent 1
  let memory_ratio := mon.memory_max / max met.memory_percent 1
  let disk_ratio := mon.disk_max / max met.disk_percent 1
  let ratio := min cpu_ratio (min memory_ratio disk_ratio)
  { mon with throttled := true,
             max_processes := max 1 (Int.toNat ⌊(mon.active : ℚ) * ratio * (4/5)⌋) }

/-- Embeds `ResourceMonitor._remove_throttling` (lines 142-149). -/
def remove_throttling (mon : Monitor) : Monitor :=
  { mon with throttled := false, max_processes := mon.original_max_processes }

/-- Embeds `ResourceMonitor.update_process_metrics` (lines 71-111): a no-op
unless `monitoring_interval` has elapsed (`fresh`); otherwise throttle
or recover according to the pressure of the fresh snapshot, then drop
the registrations whose processes have vanished (`drops` of them). -/
def update_process_metrics (mon : Monitor) (fresh : Bool) (met : Metrics) (drops : ℕ) : Monitor :=
  if fresh = false then mon
  else
    let m1 :=
      if mon.throttled = false ∧ pressure mon met > mon.throttle_threshold then
        apply_throttling mon met
      else if mon.throttled = true ∧ pressure mon met < mon.recovery_threshold then
        remove_throttling mon
      else mon
    { m1 with active := m1.active - drops }

/-- Embeds `ResourceMonitor.can_start_new_process` (lines 151-172): refresh
first (`met1` is the snapshot the refresh sees, `met2` the one taken
at line 163 for the decision), then refuse when the count cap is hit,
else admit iff all three metrics are strictly below their thresholds. -/
def can_start_new_process (mon : Monitor) (fresh : Bool) (met1 : Metrics) (drops : ℕ)
    (met2 : Metrics) : Bool × Monitor :=
  let m1 := update_process_metrics mon fresh met1 drops
  if m1.max_processes ≤ m1.active then (false, m1)
  else ((decide (met2.cpu_percent < m1.cpu_max) &&
         decide (met2.memory_percent < m1.memory_max) &&
         decide (met2.disk_percent < m1.disk_max)), m1)

/-- The `may_start` operation as worded in spec §4.3 steps 1-2, for refinement
against the code's `can_start_new_process`. -/
def mayStartSpec (mon : Monitor) (met : Metrics) : Bool :=
  if mon.active ≥ mon.max_processes then false
  else decide (met.cpu_percent < mon.cpu_max ∧ met.memory_percent < mon.memory_max ∧
    met.disk_percent < mon.disk_max)

/-- The events that mutate monitor state: a fresh refresh (which may
throttle or recover and drops dead registrations), and registering or
unregistering a child (rm.py lines 174-201).  The threshold update of
`_calibrate_resource_usage` (process_manager.py lines 156-162) is NOT
an event: it is dead code — calibration always exits through the
early return at line 61 because the probe's `start_process` returns
`None` (`start_process_none`, `calibrate_early_return`), so a run of
the calibrator never touches the monitor. -/
inductive MonStep : Monitor → Monitor → Prop
  | refresh (mon : Monitor) (met : Metrics) (drops : ℕ) :
      MonStep mon (update_process_metrics mon true met drops)
  | registerChild (mon : Monitor) :
      MonStep mon { mon with active := mon.active + 1 }
  | unregisterChild (mon : Monitor) :
      MonStep mon { mon with active := mon.active - 1 }


theorem splitField_length : ∀ (l f r : List Char),
    splitField l = some (f, r) → r.length < l.length := by
  intro l
  induction l with
  | nil => intro f r h; simp [splitField] at h
  | cons c rest ih =>
    intro f r h
    simp only [splitField] at h
    by_cases hc : c = '\x7d'
    · simp [hc] at h
      simp [← h.2]
    · simp [hc, Option.map_eq_some'] at h
      obtain ⟨a, hab, hf⟩ := h
      have hlen := ih a r hab
      simp
      omega

example : pyFormat "--in=\x7binput_file\x7d" "a.txt" "o.txt" = .ok "--in=a.txt" := rfl

example : pyFormat "\x7b" "a" "o" = .error () := rfl

example : pyFormat "\x7b\x7b\x7d\x7d" "a" "o" = .ok "\x7b\x7d" := rfl

example : pyFormat "\x7bother\x7d" "a" "o" = .error () := rfl

example : pyFormat "\x7d" "a" "o" = .error () := rfl

example : pyFormat "plain" "a" "o" = .ok "plain" := rfl

example : build_command ⟨⟨"/bin/cp", ["\x7binput_file\x7d", "\x7boutput_file\x7d"]⟩, ⟨"/out", ".bak"⟩⟩ "/data/a.txt" = .ok ["/bin/cp", "/data/a.txt", "/out/a.txt.bak"] := rfl

/-! ## Flags that the builder passes through unchanged -/

theorem pyFmt_braceless (input output : List Char) :
    ∀ (fuel : Nat) (l : List Char), l.length ≤ fuel →
      '\x7b' ∉ l → '\x7d' ∉ l →
      pyFmt input output fuel l = .ok l := by
  intro fuel
  induction fuel with
  | zero =>
    intro l hl _ _
    cases l with
    | nil => rfl
    | cons c cs => simp at hl
  | succ n ih =>
    intro l hl hb hd
    cases l with
    | nil => rfl
    | cons c cs =>
      have hcb : ¬ c = '\x7b' := by intro hc; exact hb (hc ▸ List.mem_cons_self c cs)
      have hcd : ¬ c = '\x7d' := by intro hc; exact hd (hc ▸ List.mem_cons_self c cs)
      have hcs : pyFmt input output n cs = .ok cs := by
        refine ih cs ?_ (fun hx => hb (List.mem_cons_of_mem c hx))
          (fun hx => hd (List.mem_cons_of_mem c hx))
        simpa using Nat.le_of_succ_le_succ hl
      simp [pyFmt, hcb, hcd, hcs, Except.map]

theorem pyFormat_braceless (fl input output : String)
    (hb : '\x7b' ∉ fl.data) (hd : '\x7d' ∉ fl.data) :
    pyFormat fl input output = .ok fl := by
  unfold pyFormat
  rw [pyFmt_braceless input.data output.data fl.data.length fl.data le_rfl hb hd]
  rfl

theorem mapM_pyFormat_braceless (input output : String) :
    ∀ (fls : List String), (∀ fl ∈ fls, '\x7b' ∉ fl.data ∧ '\x7d' ∉ fl.data) →
      fls.mapM (fun fl => pyFormat fl input output) = .ok fls := by
  intro fls
  induction fls with
  | nil => intro _; rfl
  | cons fl rest ih =>
    intro h
    have h1 := h fl (List.mem_cons_self fl rest)
    have h2 : rest.mapM (fun fl => pyFormat fl input output) = .ok rest :=
      ih (fun g hg => h g (List.mem_cons_of_mem fl hg))
    rw [List.mapM_cons, pyFormat_braceless fl input output h1.1 h1.2, h2]
    rfl

/-- C8 counterexample.  The claim says the builder raises no error and
passes any flag without a placeholder through unchanged.  On the code
(`str.format`) the flag `"\x7b"` raises `ValueError`, and the flag
`"\x7b\x7b"` — which contains neither placeholder — is emitted as the
different string `"\x7b"`. -/
theorem build_command_not_total_counterexample :
    build_command ⟨⟨"/bin/p", ["\x7b"]⟩, ⟨"/out", ""⟩⟩ "in.txt" = .error () ∧
    hasPlaceholder "\x7b\x7b" = false ∧
    build_command ⟨⟨"/bin/p", ["\x7b\x7b"]⟩, ⟨"/out", ""⟩⟩ "in.txt" =
      .ok ["/bin/p", "\x7b"] ∧
    ("\x7b" : String) ≠ ("\x7b\x7b" : String) :=
  ⟨rfl, rfl, rfl, by decide⟩

/-- C8 (amended): the Command Builder is pure, and for every flag
containing no brace character it raises no error and passes the flag
through unchanged (flags containing braces may be rejected — unmatched
brace or unknown field name — or altered, braces being `format`
escapes). -/
theorem build_command_braceless_passthrough (cfg : Config) (input_file : String)
    (h : ∀ fl ∈ cfg.binary.flags, '\x7b' ∉ fl.data ∧ '\x7d' ∉ fl.data) :
    build_command cfg input_file = .ok (cfg.binary.path :: cfg.binary.flags) := by
  simp only [build_command]
  rw [mapM_pyFormat_braceless _ _ cfg.binary.flags h]
  rfl

/-- Witness for `build_command_braceless_passthrough` at a concrete
configuration with the brace-free flag list `["-v"]`. -/
theorem build_command_braceless_passthrough_witness :
    (∀ fl ∈ (["-v"] : List String), '\x7b' ∉ fl.data ∧ '\x7d' ∉ fl.data) ∧
    build_command ⟨⟨"/bin/p", ["-v"]⟩, ⟨"/o", ""⟩⟩ "x.txt" = .ok ["/bin/p", "-v"] :=
  ⟨by decide, build_command_braceless_passthrough ⟨⟨"/bin/p", ["-v"]⟩, ⟨"/o", ""⟩⟩ "x.txt" (by decide)⟩

example : buildSpec ⟨"/bin/cp", ["\x7binput_file\x7d", ">", "log"], "/o", ""⟩ "a" =
    (["/bin/cp", "a", ">", "log"], true) := rfl

example : buildSpec ⟨"/bin/cp", ["--out>log"], "/o", ""⟩ "a" =
    (["/bin/cp", "--out>log"], false) := rfl

/-- C3: `needs_shell` is true iff some fully-expanded flag equals `>`,
`>>`, `|` or `<` as a whole token, and when it is false no emitted argv
entry is such a token (the binary path being an executable path, not an
operator token). -/
theorem buildSpec_needs_shell_iff (js : JobSpec) (input_file : String)
    (hpath : js.binary_path ∉ shellOps) :
    ((buildSpec js input_file).2 = true ↔
      ∃ fl ∈ js.flags, expandFlag js input_file fl ∈ shellOps) ∧
    ((buildSpec js input_file).2 = false →
      ∀ a ∈ (buildSpec js input_file).1, a ∉ shellOps) := by
  constructor
  · simp [buildSpec, List.any_eq_true]
  · intro hfalse a ha
    simp only [buildSpec, List.mem_cons] at ha
    rcases ha with rfl | ha
    · exact hpath
    · intro hop
      have : (js.flags.map (expandFlag js input_file)).any
          (fun t => decide (t ∈ shellOps)) = true := by
        simp only [List.any_eq_true]
        exact ⟨a, ha, by simpa using hop⟩
      simp [buildSpec] at hfalse
      rcases List.mem_map.mp ha with ⟨fl, hfl, rfl⟩
      exact hfalse fl hfl (by simpa using hop)

/-- Witness for `buildSpec_needs_shell_iff` at a concrete job spec whose
single flag is the pipe token. -/
theorem buildSpec_needs_shell_iff_witness :
    (("/bin/cp" : String) ∉ shellOps) ∧
    (((buildSpec ⟨"/bin/cp", ["|"], "/o", ""⟩ "a").2 = true ↔
      ∃ fl ∈ (["|"] : List String), expandFlag ⟨"/bin/cp", ["|"], "/o", ""⟩ "a" fl ∈ shellOps) ∧
    ((buildSpec ⟨"/bin/cp", ["|"], "/o", ""⟩ "a").2 = false →
      ∀ x ∈ (buildSpec ⟨"/bin/cp", ["|"], "/o", ""⟩ "a").1, x ∉ shellOps)) :=
  ⟨by decide, buildSpec_needs_shell_iff ⟨"/bin/cp", ["|"], "/o", ""⟩ "a" (by decide)⟩

theorem check_process_cases (env : Env) (st : SysState) (f : String) (c : Child) :
    (check_process env st f c).2.2 = st ∨
    (check_process env st f c).2.2 = { st with completed := st.completed ++ [f] } ∨
    (check_process env st f c).2.2 =
      { st with retry_counts := setCount st.retry_counts f (lookupCount st.retry_counts f + 1) } ∨
    (check_process env st f c).2.2 =
      { st with failed := st.failed ++ [f],
                retry_counts := setCount st.retry_counts f (lookupCount st.retry_counts f + 1) } := by
  simp only [check_process]
  split_ifs <;> simp

theorem check_process_fin (env : Env) (st : SysState) (f : String) (c : Child)
    (h : (check_process env st f c).1 ≠ none) :
    f ∈ (check_process env st f c).2.2.completed ∨ f ∈ (check_process env st f c).2.2.failed := by
  simp only [check_process] at h ⊢
  split_ifs at h ⊢ <;> simp_all

theorem check_process_comp_allFail (env : Env) (st : SysState) (f : String) (c : Child)
    (h : ∀ p, env.exit_code p ≠ 0) :
    (check_process env st f c).2.2.completed = st.completed := by
  simp only [check_process]
  split_ifs with h1 h2 <;> simp_all [h c.pid]

theorem check_all_map_fst (env : Env) :
    ∀ (l : List (String × Child)) (st : SysState),
      (check_all env l st).1.map Prod.fst = l.map Prod.fst := by
  intro l
  induction l with
  | nil => intro st; rfl
  | cons p rest ih =>
    intro st
    obtain ⟨f, c⟩ := p
    rcases hr : (check_process env st f c).1 with _ | b <;>
      simp [check_all, hr, ih]

theorem check_all_unchanged (env : Env) :
    ∀ (l : List (String × Child)) (st : SysState),
      (check_all env l st).2.2.processes = st.processes ∧
      (check_all env l st).2.2.running = st.running ∧
      (check_all env l st).2.2.forks = st.forks ∧
      (check_all env l st).2.2.nextPid = st.nextPid ∧
      (check_all env l st).2.2.tick = st.tick := by
  intro l
  induction l with
  | nil => intro st; exact ⟨rfl, rfl, rfl, rfl, rfl⟩
  | cons p rest ih =>
    intro st
    obtain ⟨f, c⟩ := p
    have hcp := check_process_cases env st f c
    have hrest := ih (check_process env st f c).2.2
    rcases hr : (check_process env st f c).1 with _ | b <;>
      rcases hcp with h | h | h | h <;>
      simp only [check_all, hr] <;>
      constructor <;> try constructor
    all_goals first
      | (rw [hrest.1, h])
      | (rw [hrest.2.1, h])
      | (constructor <;> [skip; constructor] <;>
          first
            | (rw [hrest.2.2.1, h])
            | (rw [hrest.2.2.2.1, h])
            | (rw [hrest.2.2.2.2, h]))

theorem check_process_comp_mono (env : Env) (st : SysState) (f g : String) (c : Child)
    (h : g ∈ st.completed) : g ∈ (check_process env st f c).2.2.completed := by
  rcases check_process_cases env st f c with hc | hc | hc | hc <;> simp [hc, h]

theorem check_process_fail_mono (env : Env) (st : SysState) (f g : String) (c : Child)
    (h : g ∈ st.failed) : g ∈ (check_process env st f c).2.2.failed := by
  rcases check_process_cases env st f c with hc | hc | hc | hc <;> simp [hc, h]

theorem check_all_comp_mono (env : Env) :
    ∀ (l : List (String × Child)) (st : SysState) (g : String),
      g ∈ st.completed → g ∈ (check_all env l st).2.2.completed := by
  intro l
  induction l with
  | nil => intro st g h; exact h
  | cons p rest ih =>
    intro st g h
    obtain ⟨f, c⟩ := p
    have h1 := check_process_comp_mono env st f g c h
    have h2 := ih (check_process env st f c).2.2 g h1
    rcases hr : (check_process env st f c).1 with _ | b <;> simpa [check_all, hr] using h2

theorem check_all_fail_mono (env : Env) :
    ∀ (l : List (String × Child)) (st : SysState) (g : String),
      g ∈ st.failed → g ∈ (check_all env l st).2.2.failed := by
  intro l
  induction l with
  | nil => intro st g h; exact h
  | cons p rest ih =>
    intro st g h
    obtain ⟨f, c⟩ := p
    have h1 := check_process_fail_mono env st f g c h
    have h2 := ih (check_process env st f c).2.2 g h1
    rcases hr : (check_process env st f c).1 with _ | b <;> simpa [check_all, hr] using h2

theorem check_all_fin_settled (env : Env) :
    ∀ (l : List (String × Child)) (st : SysState) (g : String),
      g ∈ (check_all env l st).2.1 →
      g ∈ (check_all env l st).2.2.completed ∨ g ∈ (check_all env l st).2.2.failed := by
  intro l
  induction l with
  | nil => intro st g h; simp [check_all] at h
  | cons p rest ih =>
    intro st g h
    obtain ⟨f, c⟩ := p
    rcases hr : (check_process env st f c).1 with _ | b
    · simp only [check_all, hr] at h ⊢
      exact ih (check_process env st f c).2.2 g h
    · simp only [check_all, hr, List.mem_cons] at h ⊢
      rcases h with rfl | h2
      · rcases check_process_fin env st g c (by simp [hr]) with hm | hm
        · exact Or.inl (check_all_comp_mono env rest _ g hm)
        · exact Or.inr (check_all_fail_mono env rest _ g hm)
      · exact ih (check_process env st f c).2.2 g h2

theorem check_process_comp_new (env : Env) (st : SysState) (f g : String) (c : Child)
    (h : g ∈ (check_process env st f c).2.2.completed) : g ∈ st.completed ∨ g = f := by
  rcases check_process_cases env st f c with hc | hc | hc | hc <;> simp [hc] at h <;> tauto

theorem check_process_fail_new (env : Env) (st : SysState) (f g : String) (c : Child)
    (h : g ∈ (check_process env st f c).2.2.failed) : g ∈ st.failed ∨ g = f := by
  rcases check_process_cases env st f c with hc | hc | hc | hc <;> simp [hc] at h <;> tauto

theorem check_all_comp_new (env : Env) :
    ∀ (l : List (String × Child)) (st : SysState) (g : String),
      g ∈ (check_all env l st).2.2.completed →
      g ∈ st.completed ∨ g ∈ l.map Prod.fst := by
  intro l
  induction l with
  | nil => intro st g h; exact Or.inl h
  | cons p rest ih =>
    intro st g h
    obtain ⟨f, c⟩ := p
    have h1 : g ∈ (check_all env rest (check_process env st f c).2.2).2.2.completed := by
      rcases hr : (check_process env st f c).1 with _ | b <;> simpa [check_all, hr] using h
    rcases ih (check_process env st f c).2.2 g h1 with h2 | h2
    · rcases check_process_comp_new env st f g c h2 with h3 | h3
      · exact Or.inl h3
      · simp [h3]
    · simp [h2]

theorem check_all_fail_new (env : Env) :
    ∀ (l : List (String × Child)) (st : SysState) (g : String),
      g ∈ (check_all env l st).2.2.failed →
      g ∈ st.failed ∨ g ∈ l.map Prod.fst := by
  intro l
  induction l with
  | nil => intro st g h; exact Or.inl h
  | cons p rest ih =>
    intro st g h
    obtain ⟨f, c⟩ := p
    have h1 : g ∈ (check_all env rest (check_process env st f c).2.2).2.2.failed := by
      rcases hr : (check_process env st f c).1 with _ | b <;> simpa [check_all, hr] using h
    rcases ih (check_process env st f c).2.2 g h1 with h2 | h2
    · rcases check_process_fail_new env st f g c h2 with h3 | h3
      · exact Or.inl h3
      · simp [h3]
    · simp [h2]

theorem check_all_comp_allFail (env : Env) (hexit : ∀ p, env.exit_code p ≠ 0) :
    ∀ (l : List (String × Child)) (st : SysState),
      (check_all env l st).2.2.completed = st.completed := by
  intro l
  induction l with
  | nil => intro st; rfl
  | cons p rest ih =>
    intro st
    obtain ⟨f, c⟩ := p
    have h1 := check_process_comp_allFail env st f c hexit
    have h2 := ih (check_process env st f c).2.2
    rcases hr : (check_process env st f c).1 with _ | b <;>
      simp [check_all, hr, h2, h1]

theorem settled_tick (st : SysState) (n : Nat) (g : String) :
    settled { st with tick := n } g ↔ settled st g := by
  simp [settled, SysState.names]

theorem start_process_settled (env : Env) (st : SysState) (f : String) (h : settled st f) :
    start_process env st f = .ok (none, st) := by
  unfold start_process
  rcases h with h | h | h
  · rw [if_pos h]
  · by_cases h1 : f ∈ st.names
    · rw [if_pos h1]
    · rw [if_neg h1, if_pos h]
  · by_cases h1 : f ∈ st.names
    · rw [if_pos h1]
    · rw [if_neg h1]
      by_cases h2 : f ∈ st.completed
      · rw [if_pos h2]
      · rw [if_neg h2, if_pos h]

theorem start_process_missing (env : Env) (st : SysState) (f : String)
    (h : ¬ settled st f) (hx : env.fileExists f = false) :
    start_process env st f = .error (f, st) := by
  have h1 : f ∉ st.names := fun hm => h (Or.inl hm)
  have h2 : f ∉ st.completed := fun hm => h (Or.inr (Or.inl hm))
  have h3 : f ∉ st.failed := fun hm => h (Or.inr (Or.inr hm))
  simp [start_process, h1, h2, h3, hx]

theorem start_process_forkfail (env : Env) (st : SysState) (f : String)
    (h : ¬ settled st f) (hx : env.fileExists f = true)
    (hk : env.forkOk st.nextPid = false) :
    start_process env st f = .ok (none, forkFailState st f) := by
  have h1 : f ∉ st.names := fun hm => h (Or.inl hm)
  have h2 : f ∉ st.completed := fun hm => h (Or.inr (Or.inl hm))
  have h3 : f ∉ st.failed := fun hm => h (Or.inr (Or.inr hm))
  simp [start_process, forkFailState, h1, h2, h3, hx, hk]

theorem settled_forkFailState_mono (st : SysState) (f g : String) (h : settled st g) :
    settled (forkFailState st f) g := by
  rcases h with h | h | h
  · exact Or.inl (by simpa [forkFailState, SysState.names] using h)
  · exact Or.inr (Or.inl (by simpa [forkFailState] using h))
  · exact Or.inr (Or.inr (by simp [forkFailState, h]))

theorem settled_forkFailState_self (st : SysState) (f : String) :
    settled (forkFailState st f) f :=
  Or.inr (Or.inr (by simp [forkFailState]))

theorem settled_forkFailState_inv (st : SysState) (f g : String)
    (h : settled (forkFailState st f) g) : settled st g ∨ g = f := by
  rcases h with h | h | h
  · exact Or.inl (Or.inl (by simpa [forkFailState, SysState.names] using h))
  · exact Or.inl (Or.inr (Or.inl (by simpa [forkFailState] using h)))
  · have : g ∈ st.failed ++ [f] := by simpa [forkFailState] using h
    rcases List.mem_append.mp this with h1 | h1
    · exact Or.inl (Or.inr (Or.inr h1))
    · exact Or.inr (by simpa using h1)

theorem start_process_fork_exception (env : Env) (st : SysState) (f : String)
    (h1 : ¬ settled st f) (h2 : env.fileExists f = true)
    (h3 : env.forkOk st.nextPid = false) :
    start_process env st f = .ok (none, forkFailState st f) ∧
    (forkFailState st f).failed = st.failed ++ [f] ∧
    (forkFailState st f).processes = st.processes ∧
    (forkFailState st f).running = st.running ∧
    (forkFailState st f).completed = st.completed ∧
    (forkFailState st f).forks = st.forks := by
  refine ⟨start_process_forkfail env st f h1 h2 h3, ?_, ?_, ?_, ?_, ?_⟩ <;>
    simp [forkFailState]

/-- Witness for `start_process_fork_exception` at a fresh state and a
fork that the OS refuses. -/
theorem start_process_fork_exception_witness :
    start_process ⟨fun _ => true, fun _ => false, fun _ => 0, fun _ => 1, fun _ => true⟩
        initState "a" = .ok (none, forkFailState initState "a") ∧
    (forkFailState initState "a").failed = initState.failed ++ ["a"] ∧
    (forkFailState initState "a").processes = initState.processes ∧
    (forkFailState initState "a").running = initState.running ∧
    (forkFailState initState "a").completed = initState.completed ∧
    (forkFailState initState "a").forks = initState.forks :=
  start_process_fork_exception ⟨fun _ => true, fun _ => false, fun _ => 0, fun _ => 1, fun _ => true⟩
    initState "a"
    (by intro hs; rcases hs with hs | hs | hs <;> simp [initState, SysState.names] at hs)
    rfl rfl

/-- C10: calling `start_process` on a file that is already active, completed or
failed returns `None` before any mutation: the whole state — active
map, completed list, failed list, retry counters, sampler registry and
fork log — is returned unchanged. -/
theorem start_process_already_tracked_frame (env : Env) (st : SysState) (f : String)
    (h : f ∈ st.names ∨ f ∈ st.completed ∨ f ∈ st.failed) :
    start_process env st f = .ok (none, st) :=
  start_process_settled env st f h

/-- Witness for `start_process_already_tracked_frame` on a state whose
completed list already holds the file. -/
theorem start_process_already_tracked_frame_witness :
    start_process ⟨fun _ => true, fun _ => true, fun _ => 0, fun _ => 1, fun _ => true⟩
        ⟨[], [], ["a"], [], [], 3, 4, ["a"]⟩ "a" =
      .ok (none, ⟨[], [], ["a"], [], [], 3, 4, ["a"]⟩) :=
  start_process_already_tracked_frame
    ⟨fun _ => true, fun _ => true, fun _ => 0, fun _ => 1, fun _ => true⟩
    ⟨[], [], ["a"], [], [], 3, 4, ["a"]⟩ "a" (Or.inr (Or.inl (by simp)))

theorem can_start_new_process_spec (mon : Monitor) (fresh : Bool) (met1 : Metrics)
    (drops : ℕ) (met2 : Metrics) :
    (can_start_new_process mon fresh met1 drops met2).1 =
      mayStartSpec (update_process_metrics mon fresh met1 drops) met2 ∧
    ((can_start_new_process mon fresh met1 drops met2).1 = true ↔
      (update_process_metrics mon fresh met1 drops).active <
        (update_process_metrics mon fresh met1 drops).max_processes ∧
      met2.cpu_percent < (update_process_metrics mon fresh met1 drops).cpu_max ∧
      met2.memory_percent < (update_process_metrics mon fresh met1 drops).memory_max ∧
      met2.disk_percent < (update_process_metrics mon fresh met1 drops).disk_max) := by
  constructor
  · simp only [can_start_new_process, mayStartSpec, ge_iff_le]
    split_ifs with h
    · rfl
    · simp [Bool.and_assoc]
  · simp only [can_start_new_process]
    split_ifs with h
    · simp
      omega
    · simp only [Bool.and_eq_true, decide_eq_true_eq]
      constructor
      · intro hc
        exact ⟨by omega, hc.1.1, hc.1.2, hc.2⟩
      · intro hc
        exact ⟨⟨hc.2.1, hc.2.2.1⟩, hc.2.2.2⟩

/-! ## Preservation of the supervisor invariants -/

theorem start_process_none (env : Env) (st : SysState) (f : String)
    (r : Option Nat × SysState) (h : start_process env st f = .ok r) : r.1 = none := by
  rcases r with ⟨o, st1⟩
  simp only [start_process] at h
  split_ifs at h <;> injection h with h2 <;> exact (congrArg Prod.fst h2).symm

theorem supInv_initState : SupInv initState :=
  ⟨rfl, fun f hf => by simp [initState] at hf, fun f => by simp [initState]⟩

theorem supInv_tick (st : SysState) (n : Nat) (h : SupInv st) :
    SupInv { st with tick := n } :=
  ⟨h.runEmpty, h.forkFailed, h.countLe⟩

theorem forkAttrState_names (st : SysState) (f : String) :
    (forkAttrState st f).names = st.names ++ [f] := by
  simp [forkAttrState, SysState.names]

theorem settled_forkAttrState_mono (st : SysState) (f g : String) (h : settled st g) :
    settled (forkAttrState st f) g := by
  rcases h with h | h | h
  · exact Or.inl (by rw [forkAttrState_names]; exact List.mem_append.mpr (Or.inl h))
  · exact Or.inr (Or.inl (by simpa [forkAttrState] using h))
  · exact Or.inr (Or.inr (by simp [forkAttrState, h]))

theorem settled_forkAttrState_self (st : SysState) (f : String) :
    settled (forkAttrState st f) f :=
  Or.inr (Or.inr (by simp [forkAttrState]))

theorem settled_forkAttrState_inv (st : SysState) (f g : String)
    (h : settled (forkAttrState st f) g) : settled st g ∨ g = f := by
  rcases h with h | h | h
  · rw [forkAttrState_names] at h
    rcases List.mem_append.mp h with h1 | h1
    · exact Or.inl (Or.inl h1)
    · exact Or.inr (by simpa using h1)
  · exact Or.inl (Or.inr (Or.inl (by simpa [forkAttrState] using h)))
  · have h2 : g ∈ st.failed ++ [f] := by simpa [forkAttrState] using h
    rcases List.mem_append.mp h2 with h1 | h1
    · exact Or.inl (Or.inr (Or.inr h1))
    · exact Or.inr (by simpa using h1)

theorem supInv_forkAttr (st : SysState) (f : String) (h : SupInv st)
    (hf : f ∉ st.forks) : SupInv (forkAttrState st f) := by
  refine ⟨?_, ?_, ?_⟩
  · simpa [forkAttrState] using h.runEmpty
  · intro g hg
    have hg2 : g ∈ st.forks ++ [f] := by simpa [forkAttrState] using hg
    have hmem : g ∈ st.failed ++ [f] := by
      rcases List.mem_append.mp hg2 with h1 | h1
      · exact List.mem_append.mpr (Or.inl (h.forkFailed g h1))
      · exact List.mem_append.mpr (Or.inr h1)
    simpa [forkAttrState] using hmem
  · intro g
    have hcount : (forkAttrState st f).forks = st.forks ++ [f] := rfl
    rw [hcount, List.count_append]
    by_cases hgf : g = f
    · subst hgf
      have h0 : st.forks.count g = 0 := List.count_eq_zero.mpr hf
      simp [h0]
    · have h1 : List.count g [f] = 0 := by
        simp [List.count_cons, hgf]
      have h2 := h.countLe g
      omega

theorem supInv_forkfail (st : SysState) (f : String) (h : SupInv st) :
    SupInv (forkFailState st f) := by
  refine ⟨?_, ?_, ?_⟩
  · simpa [forkFailState] using h.runEmpty
  · intro g hg
    have hg2 : g ∈ st.forks := by simpa [forkFailState] using hg
    have hmem : g ∈ st.failed ++ [f] := List.mem_append.mpr (Or.inl (h.forkFailed g hg2))
    simpa [forkFailState] using hmem
  · intro g
    simpa [forkFailState] using h.countLe g

theorem start_process_forkAttr (env : Env) (st : SysState) (f : String)
    (h : ¬ settled st f) (hx : env.fileExists f = true)
    (hk : env.forkOk st.nextPid = true) :
    start_process env st f = .ok (none, forkAttrState st f) := by
  have h1 : f ∉ st.names := fun hm => h (Or.inl hm)
  have h2 : f ∉ st.completed := fun hm => h (Or.inr (Or.inl hm))
  have h3 : f ∉ st.failed := fun hm => h (Or.inr (Or.inr hm))
  simp [start_process, h1, h2, h3, hx, hk]

theorem check_processes_empty (env : Env) (st : SysState) (h : st.processes = []) :
    check_processes env st = .ok st := by
  obtain ⟨p, rn, cp, fl, rc, np, tk, fk⟩ := st
  have h2 : p = [] := h
  subst h2
  rfl

theorem check_processes_cases (env : Env) (st : SysState) :
    (check_processes env st = .ok { (check_all env st.processes st).2.2 with
        processes := (check_all env st.processes st).1 } ∧
      (check_all env st.processes st).2.1 = []) ∨
    (∃ f0 fin, (check_all env st.processes st).2.1 = f0 :: fin ∧
      check_processes env st = .error { (check_all env st.processes st).2.2 with
        processes := (check_all env st.processes st).1.filter
          (fun p => decide (p.1 ≠ f0)) }) := by
  rcases hfin : (check_all env st.processes st).2.1 with _ | ⟨f0, fin⟩
  · exact Or.inl ⟨by simp only [check_processes, hfin], rfl⟩
  · exact Or.inr ⟨f0, fin, rfl, by simp only [check_processes, hfin]⟩

theorem check_processes_ok_facts (env : Env) (st st1 : SysState)
    (h : check_processes env st = .ok st1) :
    st1.names = st.names ∧ st1.running = st.running ∧ st1.forks = st.forks ∧
    st1.nextPid = st.nextPid ∧ st1.tick = st.tick ∧
    (∀ g ∈ st.completed, g ∈ st1.completed) ∧
    (∀ g ∈ st.failed, g ∈ st1.failed) ∧
    (∀ g ∈ st1.completed, g ∈ st.completed ∨ g ∈ st.names) ∧
    (∀ g ∈ st1.failed, g ∈ st.failed ∨ g ∈ st.names) := by
  rcases check_processes_cases env st with ⟨hok, hfin⟩ | ⟨f0, fin, hfin, herr⟩
  · rw [h] at hok
    injection hok with hok
    subst hok
    have hu := check_all_unchanged env st.processes st
    refine ⟨?_, hu.2.1, hu.2.2.1, hu.2.2.2.1, hu.2.2.2.2, ?_, ?_, ?_, ?_⟩
    · show ((check_all env st.processes st).1).map Prod.fst = st.names
      rw [check_all_map_fst]
      rfl
    · intro g hg; exact check_all_comp_mono env st.processes st g hg
    · intro g hg; exact check_all_fail_mono env st.processes st g hg
    · intro g hg; exact check_all_comp_new env st.processes st g hg
    · intro g hg; exact check_all_fail_new env st.processes st g hg
  · rw [h] at herr
    injection herr

theorem check_processes_error_facts (env : Env) (st stc : SysState)
    (h : check_processes env st = .error stc) :
    stc.running = st.running ∧ stc.forks = st.forks ∧
    (∀ g ∈ st.completed, g ∈ stc.completed) ∧
    (∀ g ∈ st.failed, g ∈ stc.failed) ∧
    (∀ g ∈ stc.completed, g ∈ st.completed ∨ g ∈ st.names) ∧
    (∀ g ∈ stc.failed, g ∈ st.failed ∨ g ∈ st.names) := by
  rcases check_processes_cases env st with ⟨hok, hfin⟩ | ⟨f0, fin, hfin, herr⟩
  · rw [h] at hok
    injection hok
  · rw [h] at herr
    injection herr with herr
    subst herr
    have hu := check_all_unchanged env st.processes st
    exact ⟨hu.2.1, hu.2.2.1,
      fun g hg => check_all_comp_mono env st.processes st g hg,
      fun g hg => check_all_fail_mono env st.processes st g hg,
      fun g hg => check_all_comp_new env st.processes st g hg,
      fun g hg => check_all_fail_new env st.processes st g hg⟩

theorem supInv_check_ok (env : Env) (st st1 : SysState) (hinv : SupInv st)
    (h : check_processes env st = .ok st1) : SupInv st1 := by
  obtain ⟨hnames, hrun, hforks, _, _, _, hfmono, _, _⟩ := check_processes_ok_facts env st st1 h
  refine ⟨?_, ?_, ?_⟩
  · rw [hrun]; exact hinv.runEmpty
  · intro g hg
    rw [hforks] at hg
    exact hfmono g (hinv.forkFailed g hg)
  · intro g; rw [hforks]; exact hinv.countLe g

theorem supInv_check_error (env : Env) (st stc : SysState) (hinv : SupInv st)
    (h : check_processes env st = .error stc) : SupInv stc := by
  obtain ⟨hrun, hforks, _, hfmono, _, _⟩ := check_processes_error_facts env st stc h
  refine ⟨?_, ?_, ?_⟩
  · rw [hrun]; exact hinv.runEmpty
  · intro g hg
    rw [hforks] at hg
    exact hfmono g (hinv.forkFailed g hg)
  · intro g; rw [hforks]; exact hinv.countLe g

theorem settled_check_ok (env : Env) (st st1 : SysState)
    (h : check_processes env st = .ok st1) (g : String) (hg : settled st g) :
    settled st1 g := by
  obtain ⟨hnames, _, _, _, _, hcmono, hfmono, _, _⟩ := check_processes_ok_facts env st st1 h
  rcases hg with hg | hg | hg
  · exact Or.inl (by rw [hnames]; exact hg)
  · exact Or.inr (Or.inl (hcmono g hg))
  · exact Or.inr (Or.inr (hfmono g hg))

theorem run_loop_done (env : Env) (fuel : Nat) (pending : List String) (st : SysState)
    (hd : pending = [] ∧ st.processes = []) :
    run_loop env fuel pending st = some (.ok (if st.failed = [] then 0 else 1, st)) := by
  cases fuel <;> simp only [run_loop, if_pos hd]

theorem run_loop_zero_not_done (env : Env) (pending : List String) (st : SysState)
    (hnd : ¬ (pending = [] ∧ st.processes = [])) :
    run_loop env 0 pending st = none := by
  simp only [run_loop, if_neg hnd]

theorem run_loop_step_check_error (env : Env) (fuel : Nat) (pending : List String)
    (st stc : SysState) (hnd : ¬ (pending = [] ∧ st.processes = []))
    (hcp : check_processes env st = .error stc) :
    run_loop env (fuel + 1) pending st = some (.error (.attrError, stc)) := by
  simp only [run_loop, if_neg hnd, hcp]

theorem run_loop_step_start_error (env : Env) (fuel : Nat) (pending : List String)
    (st st1 : SysState) (e : String × SysState)
    (hnd : ¬ (pending = [] ∧ st.processes = []))
    (hcp : check_processes env st = .ok st1)
    (hsl : start_loop env pending st1 = .error e) :
    run_loop env (fuel + 1) pending st = some (.error (.fileNotFound e.1, e.2)) := by
  simp only [run_loop, if_neg hnd, hcp, hsl]

theorem run_loop_step_ok (env : Env) (fuel : Nat) (pending : List String)
    (st st1 : SysState) (p1 : List String) (st2 : SysState)
    (hnd : ¬ (pending = [] ∧ st.processes = []))
    (hcp : check_processes env st = .ok st1)
    (hsl : start_loop env pending st1 = .ok (p1, st2)) :
    run_loop env (fuel + 1) pending st = run_loop env fuel p1 st2 := by
  simp only [run_loop, if_neg hnd, hcp, hsl]

theorem start_loop_facts (env : Env) :
    ∀ (pending : List String) (st : SysState) (pending1 : List String) (st1 : SysState),
      SupInv st → start_loop env pending st = .ok (pending1, st1) →
      StartLoopFacts pending st pending1 st1 := by
  intro pending
  induction pending with
  | nil =>
    intro st pending1 st1 hinv h
    simp only [start_loop] at h
    injection h with h2
    injection h2 with ha hb
    subst ha
    subst hb
    exact ⟨hinv, fun g hg => hg, fun g hg => hg,
      fun g hg => absurd hg (List.not_mem_nil g),
      rfl, fun g hg => hg, fun g hg => Or.inl hg, fun g hg => Or.inl hg⟩
  | cons f rest ih =>
    intro st pending1 st1 hinv h
    simp only [start_loop] at h
    set st0 : SysState := { st with tick := st.tick + 1 } with hst0
    have hinv0 : SupInv st0 := supInv_tick st _ hinv
    split at h
    · -- admission granted
      split at h
      · -- fresh file: submitted to start_process
        rename_i hg
        obtain ⟨hg1, hg2, hg3, hg4⟩ := hg
        have hns : ¬ settled st0 f := by
          intro hs
          rcases hs with hs | hs | hs
          · exact hg1 hs
          · exact hg2 hs
          · exact hg3 hs
        rcases hfx : env.fileExists f with _ | _
        · simp only [start_process_missing env st0 f hns hfx] at h
          exact Except.noConfusion h
        · rcases hfk : env.forkOk st0.nextPid with _ | _
          · simp only [start_process_forkfail env st0 f hns hfx hfk] at h
            have hrec := ih (forkFailState st0 f) pending1 st1 (supInv_forkfail st0 f hinv0) h
            refine ⟨hrec.inv, ?_, hrec.names_mono, ?_, hrec.comp_eq, hrec.forks_mono, ?_, ?_⟩
            · intro g hgg
              exact hrec.settled_mono g
                (settled_forkFailState_mono st0 f g ((settled_tick st _ g).mpr hgg))
            · intro g hgg
              rcases List.mem_cons.mp hgg with rfl | hgr
              · exact Or.inr (hrec.settled_mono g (settled_forkFailState_self st0 g))
              · exact hrec.pending_cov g hgr
            · intro g hgg
              rcases hrec.forks_new g hgg with h1 | h1
              · exact Or.inl h1
              · exact Or.inr (List.mem_cons.mpr (Or.inr h1))
            · intro g hgg
              rcases hrec.fail_new g hgg with h1 | h1
              · have h2 : g ∈ st.failed ++ [f] := h1
                rcases List.mem_append.mp h2 with h3 | h3
                · exact Or.inl h3
                · exact Or.inr (List.mem_cons.mpr (Or.inl (by simpa using h3)))
              · exact Or.inr (List.mem_cons.mpr (Or.inr h1))
          · have hnf : f ∉ st0.forks := fun hmem => hg3 (hinv0.forkFailed f hmem)
            simp only [start_process_forkAttr env st0 f hns hfx hfk] at h
            have hrec := ih (forkAttrState st0 f) pending1 st1
              (supInv_forkAttr st0 f hinv0 hnf) h
            refine ⟨hrec.inv, ?_, ?_, ?_, hrec.comp_eq, ?_, ?_, ?_⟩
            · intro g hgg
              exact hrec.settled_mono g
                (settled_forkAttrState_mono st0 f g ((settled_tick st _ g).mpr hgg))
            · intro g hgg
              apply hrec.names_mono
              rw [forkAttrState_names]
              exact List.mem_append.mpr (Or.inl hgg)
            · intro g hgg
              rcases List.mem_cons.mp hgg with rfl | hgr
              · exact Or.inr (hrec.settled_mono g (settled_forkAttrState_self st0 g))
              · exact hrec.pending_cov g hgr
            · intro g hgg
              apply hrec.forks_mono
              show g ∈ st.forks ++ [f]
              exact List.mem_append.mpr (Or.inl hgg)
            · intro g hgg
              rcases hrec.forks_new g hgg with h1 | h1
              · have h2 : g ∈ st.forks ++ [f] := h1
                rcases List.mem_append.mp h2 with h3 | h3
                · exact Or.inl h3
                · exact Or.inr (List.mem_cons.mpr (Or.inl (by simpa using h3)))
              · exact Or.inr (List.mem_cons.mpr (Or.inr h1))
            · intro g hgg
              rcases hrec.fail_new g hgg with h1 | h1
              · have h2 : g ∈ st.failed ++ [f] := h1
                rcases List.mem_append.mp h2 with h3 | h3
                · exact Or.inl h3
                · exact Or.inr (List.mem_cons.mpr (Or.inl (by simpa using h3)))
              · exact Or.inr (List.mem_cons.mpr (Or.inr h1))
      · -- file already tracked: skipped
        rename_i hg
        have hrec := ih st0 pending1 st1 hinv0 h
        refine ⟨hrec.inv, ?_, hrec.names_mono, ?_, hrec.comp_eq, hrec.forks_mono, ?_, ?_⟩
        · intro g hgg
          exact hrec.settled_mono g ((settled_tick st _ g).mpr hgg)
        · intro g hgg
          rcases List.mem_cons.mp hgg with rfl | hgr
          · have hsf : settled st0 g := by
              by_contra hns
              apply hg
              refine ⟨?_, ?_, ?_, ?_⟩
              · exact fun hm => hns (Or.inl hm)
              · exact fun hm => hns (Or.inr (Or.inl hm))
              · exact fun hm => hns (Or.inr (Or.inr hm))
              · intro hm
                have hre := hinv0.runEmpty
                rw [hre] at hm
                exact absurd hm (List.not_mem_nil g)
            exact Or.inr (hrec.settled_mono g hsf)
          · exact hrec.pending_cov g hgr
        · intro g hgg
          rcases hrec.forks_new g hgg with h1 | h1
          · exact Or.inl h1
          · exact Or.inr (List.mem_cons.mpr (Or.inr h1))
        · intro g hgg
          rcases hrec.fail_new g hgg with h1 | h1
          · exact Or.inl h1
          · exact Or.inr (List.mem_cons.mpr (Or.inr h1))
    · -- admission denied: loop returns with the pending suffix intact
      injection h with h2
      injection h2 with ha hb
      subst ha
      subst hb
      exact ⟨hinv0, fun g hg => (settled_tick st _ g).mpr hg, fun g hg => hg,
        fun g hg => Or.inl hg, rfl, fun g hg => hg,
        fun g hg => Or.inl hg, fun g hg => Or.inl hg⟩

theorem start_loop_error (env : Env) :
    ∀ (pending : List String) (st : SysState) (e : String × SysState),
      SupInv st → start_loop env pending st = .error e →
      env.fileExists e.1 = false ∧ e.1 ∉ e.2.failed ∧ e.1 ∉ e.2.forks := by
  intro pending
  induction pending with
  | nil =>
    intro st e hinv h
    simp only [start_loop] at h
    exact Except.noConfusion h
  | cons f rest ih =>
    intro st e hinv h
    simp only [start_loop] at h
    set st0 : SysState := { st with tick := st.tick + 1 } with hst0
    have hinv0 : SupInv st0 := supInv_tick st _ hinv
    split at h
    · split at h
      · rename_i hg
        obtain ⟨hg1, hg2, hg3, hg4⟩ := hg
        have hns : ¬ settled st0 f := by
          intro hs
          rcases hs with hs | hs | hs
          · exact hg1 hs
          · exact hg2 hs
          · exact hg3 hs
        rcases hfx : env.fileExists f with _ | _
        · simp only [start_process_missing env st0 f hns hfx] at h
          injection h with h2
          subst h2
          refine ⟨hfx, hg3, ?_⟩
          intro hmem
          exact hg3 (hinv0.forkFailed f hmem)
        · rcases hfk : env.forkOk st0.nextPid with _ | _
          · simp only [start_process_forkfail env st0 f hns hfx hfk] at h
            exact ih (forkFailState st0 f) e (supInv_forkfail st0 f hinv0) h
          · have hnf : f ∉ st0.forks := fun hmem => hg3 (hinv0.forkFailed f hmem)
            simp only [start_process_forkAttr env st0 f hns hfx hfk] at h
            exact ih (forkAttrState st0 f) e (supInv_forkAttr st0 f hinv0 hnf) h
      · exact ih st0 e hinv0 h
    · exact Except.noConfusion h

theorem start_loop_allFork (env : Env)
    (hfile : ∀ g, env.fileExists g = true) (hfork : ∀ p, env.forkOk p = true) :
    ∀ (pending : List String) (st : SysState) (pending1 : List String) (st1 : SysState),
      start_loop env pending st = .ok (pending1, st1) →
      (∀ g, settled st g → g ∈ st.forks) → (∀ g ∈ st.forks, g ∈ st.names) →
      (∀ g, settled st1 g → g ∈ st1.forks) ∧ (∀ g ∈ st1.forks, g ∈ st1.names) := by
  intro pending
  induction pending with
  | nil =>
    intro st pending1 st1 h hsf hfn
    simp only [start_loop] at h
    injection h with h2
    injection h2 with ha hb
    subst hb
    exact ⟨hsf, hfn⟩
  | cons f rest ih =>
    intro st pending1 st1 h hsf hfn
    simp only [start_loop] at h
    set st0 : SysState := { st with tick := st.tick + 1 } with hst0
    have hsf0 : ∀ g, settled st0 g → g ∈ st0.forks := by
      intro g hg
      exact hsf g ((settled_tick st _ g).mp hg)
    have hfn0 : ∀ g ∈ st0.forks, g ∈ st0.names := hfn
    split at h
    · split at h
      · rename_i hg
        obtain ⟨hg1, hg2, hg3, hg4⟩ := hg
        have hns : ¬ settled st0 f := by
          intro hs
          rcases hs with hs | hs | hs
          · exact hg1 hs
          · exact hg2 hs
          · exact hg3 hs
        simp only [start_process_forkAttr env st0 f hns (hfile f) (hfork st0.nextPid)] at h
        apply ih (forkAttrState st0 f) pending1 st1 h
        · intro g hgg
          rcases settled_forkAttrState_inv st0 f g hgg with h1 | h1
          · show g ∈ st.forks ++ [f]
            exact List.mem_append.mpr (Or.inl (hsf0 g h1))
          · subst h1
            show g ∈ st.forks ++ [g]
            exact List.mem_append.mpr (Or.inr (by simp))
        · intro g hgg
          have h2 : g ∈ st.forks ++ [f] := hgg
          rw [forkAttrState_names]
          rcases List.mem_append.mp h2 with h3 | h3
          · exact List.mem_append.mpr (Or.inl (hfn0 g h3))
          · exact List.mem_append.mpr (Or.inr h3)
      · exact ih st0 pending1 st1 h hsf0 hfn0
    · injection h with h2
      injection h2 with ha hb
      subst hb
      exact ⟨hsf0, hfn0⟩

theorem check_processes_ok_allFork (env : Env) (st st1 : SysState)
    (h : check_processes env st = .ok st1)
    (hsf : ∀ g, settled st g → g ∈ st.forks) (hfn : ∀ g ∈ st.forks, g ∈ st.names) :
    (∀ g, settled st1 g → g ∈ st1.forks) ∧ (∀ g ∈ st1.forks, g ∈ st1.names) := by
  obtain ⟨hnames, _, hforks, _, _, _, _, hcnew, hfnew⟩ := check_processes_ok_facts env st st1 h
  constructor
  · intro g hg
    rw [hforks]
    rcases hg with hg | hg | hg
    · exact hsf g (Or.inl (by rwa [hnames] at hg))
    · rcases hcnew g hg with h1 | h1
      · exact hsf g (Or.inr (Or.inl h1))
      · exact hsf g (Or.inl h1)
    · rcases hfnew g hg with h1 | h1
      · exact hsf g (Or.inr (Or.inr h1))
      · exact hsf g (Or.inl h1)
  · intro g hg
    rw [hnames]
    exact hfn g (by rwa [hforks] at hg)

theorem run_loop_ok_facts (env : Env) :
    ∀ (fuel : Nat) (pending : List String) (st : SysState) (code : Int) (stf : SysState),
      SupInv st →
      run_loop env fuel pending st = some (.ok (code, stf)) →
      SupInv stf ∧ stf.processes = [] ∧
      code = (if stf.failed = [] then 0 else 1) ∧
      (∀ g, settled st g → settled stf g) ∧
      (∀ g ∈ pending, settled stf g) := by
  intro fuel
  induction fuel with
  | zero =>
    intro pending st code stf hinv h
    by_cases hd : pending = [] ∧ st.processes = []
    · rw [run_loop_done env 0 pending st hd] at h
      injection h with h2
      injection h2 with h3
      injection h3 with hc hs
      subst hs
      refine ⟨hinv, hd.2, hc.symm, fun g hg => hg, ?_⟩
      intro g hg
      rw [hd.1] at hg
      exact absurd hg (List.not_mem_nil g)
    · rw [run_loop_zero_not_done env pending st hd] at h
      exact Option.noConfusion h
  | succ fuel ih =>
    intro pending st code stf hinv h
    by_cases hd : pending = [] ∧ st.processes = []
    · rw [run_loop_done env _ pending st hd] at h
      injection h with h2
      injection h2 with h3
      injection h3 with hc hs
      subst hs
      refine ⟨hinv, hd.2, hc.symm, fun g hg => hg, ?_⟩
      intro g hg
      rw [hd.1] at hg
      exact absurd hg (List.not_mem_nil g)
    · rcases hcp : check_processes env st with stc | st1
      · rw [run_loop_step_check_error env fuel pending st stc hd hcp] at h
        injection h with h2
        exact Except.noConfusion h2
      · have hinv1 := supInv_check_ok env st st1 hinv hcp
        rcases hsl : start_loop env pending st1 with e | ⟨p1, st2⟩
        · rw [run_loop_step_start_error env fuel pending st st1 e hd hcp hsl] at h
          injection h with h2
          exact Except.noConfusion h2
        · rw [run_loop_step_ok env fuel pending st st1 p1 st2 hd hcp hsl] at h
          have hslf := start_loop_facts env pending st1 p1 st2 hinv1 hsl
          have hrec := ih p1 st2 code stf hslf.inv h
          refine ⟨hrec.1, hrec.2.1, hrec.2.2.1, ?_, ?_⟩
          · intro g hg
            exact hrec.2.2.2.1 g (hslf.settled_mono g (settled_check_ok env st st1 hcp g hg))
          · intro g hg
            rcases hslf.pending_cov g hg with h1 | h1
            · exact hrec.2.2.2.2 g h1
            · exact hrec.2.2.2.1 g h1

theorem run_loop_error_facts (env : Env) :
    ∀ (fuel : Nat) (pending : List String) (st : SysState) (f : String) (ste : SysState),
      SupInv st →
      run_loop env fuel pending st = some (.error (.fileNotFound f, ste)) →
      env.fileExists f = false ∧ f ∉ ste.failed ∧ f ∉ ste.forks := by
  intro fuel
  induction fuel with
  | zero =>
    intro pending st f ste hinv h
    by_cases hd : pending = [] ∧ st.processes = []
    · rw [run_loop_done env 0 pending st hd] at h
      injection h with h2
      exact Except.noConfusion h2
    · rw [run_loop_zero_not_done env pending st hd] at h
      exact Option.noConfusion h
  | succ fuel ih =>
    intro pending st f ste hinv h
    by_cases hd : pending = [] ∧ st.processes = []
    · rw [run_loop_done env _ pending st hd] at h
      injection h with h2
      exact Except.noConfusion h2
    · rcases hcp : check_processes env st with stc | st1
      · rw [run_loop_step_check_error env fuel pending st stc hd hcp] at h
        injection h with h2
        injection h2 with h3
        injection h3 with h4 h5
        exact PyErr.noConfusion h4
      · have hinv1 := supInv_check_ok env st st1 hinv hcp
        rcases hsl : start_loop env pending st1 with e | ⟨p1, st2⟩
        · rw [run_loop_step_start_error env fuel pending st st1 e hd hcp hsl] at h
          injection h with h2
          injection h2 with h3
          injection h3 with h4 h5
          injection h4 with h6
          have he := start_loop_error env pending st1 e hinv1 hsl
          rw [← h6, ← h5]
          exact he
        · rw [run_loop_step_ok env fuel pending st st1 p1 st2 hd hcp hsl] at h
          exact ih p1 st2 f ste (start_loop_facts env pending st1 p1 st2 hinv1 hsl).inv h

theorem run_loop_attr_facts (env : Env) :
    ∀ (fuel : Nat) (pending : List String) (st : SysState) (stc : SysState),
      SupInv st →
      run_loop env fuel pending st = some (.error (.attrError, stc)) →
      SupInv stc := by
  intro fuel
  induction fuel with
  | zero =>
    intro pending st stc hinv h
    by_cases hd : pending = [] ∧ st.processes = []
    · rw [run_loop_done env 0 pending st hd] at h
      injection h with h2
      exact Except.noConfusion h2
    · rw [run_loop_zero_not_done env pending st hd] at h
      exact Option.noConfusion h
  | succ fuel ih =>
    intro pending st stc hinv h
    by_cases hd : pending = [] ∧ st.processes = []
    · rw [run_loop_done env _ pending st hd] at h
      injection h with h2
      exact Except.noConfusion h2
    · rcases hcp : check_processes env st with stc1 | st1
      · rw [run_loop_step_check_error env fuel pending st stc1 hd hcp] at h
        injection h with h2
        injection h2 with h3
        injection h3 with h4 h5
        rw [← h5]
        exact supInv_check_error env st stc1 hinv hcp
      · have hinv1 := supInv_check_ok env st st1 hinv hcp
        rcases hsl : start_loop env pending st1 with e | ⟨p1, st2⟩
        · rw [run_loop_step_start_error env fuel pending st st1 e hd hcp hsl] at h
          injection h with h2
          injection h2 with h3
          injection h3 with h4 h5
          exact PyErr.noConfusion h4
        · rw [run_loop_step_ok env fuel pending st st1 p1 st2 hd hcp hsl] at h
          exact ih p1 st2 stc (start_loop_facts env pending st1 p1 st2 hinv1 hsl).inv h

theorem run_loop_allFork_ok (env : Env)
    (hfile : ∀ g, env.fileExists g = true) (hfork : ∀ p, env.forkOk p = true) :
    ∀ (fuel : Nat) (pending : List String) (st : SysState) (code : Int) (stf : SysState),
      (∀ g, settled st g → g ∈ st.forks) → (∀ g ∈ st.forks, g ∈ st.names) →
      run_loop env fuel pending st = some (.ok (code, stf)) →
      (∀ g, settled stf g → g ∈ stf.forks) ∧ (∀ g ∈ stf.forks, g ∈ stf.names) := by
  intro fuel
  induction fuel with
  | zero =>
    intro pending st code stf hsf hfn h
    by_cases hd : pending = [] ∧ st.processes = []
    · rw [run_loop_done env 0 pending st hd] at h
      injection h with h2
      injection h2 with h3
      injection h3 with hc hs
      subst hs
      exact ⟨hsf, hfn⟩
    · rw [run_loop_zero_not_done env pending st hd] at h
      exact Option.noConfusion h
  | succ fuel ih =>
    intro pending st code stf hsf hfn h
    by_cases hd : pending = [] ∧ st.processes = []
    · rw [run_loop_done env _ pending st hd] at h
      injection h with h2
      injection h2 with h3
      injection h3 with hc hs
      subst hs
      exact ⟨hsf, hfn⟩
    · rcases hcp : check_processes env st with stc | st1
      · rw [run_loop_step_check_error env fuel pending st stc hd hcp] at h
        injection h with h2
        exact Except.noConfusion h2
      · rcases hsl : start_loop env pending st1 with e | ⟨p1, st2⟩
        · rw [run_loop_step_start_error env fuel pending st st1 e hd hcp hsl] at h
          injection h with h2
          exact Except.noConfusion h2
        · rw [run_loop_step_ok env fuel pending st st1 p1 st2 hd hcp hsl] at h
          obtain ⟨hsf1, hfn1⟩ := check_processes_ok_allFork env st st1 hcp hsf hfn
          obtain ⟨hsf2, hfn2⟩ := start_loop_allFork env hfile hfork pending st1 p1 st2 hsl hsf1 hfn1
          exact ih p1 st2 code stf hsf2 hfn2 h

/-- C1 counterexample.  One-file manifest, the input present, fork
succeeding, admission always granted, binary always exiting 1: `run`
does NOT return exit code 1 — it never returns at all.  The fork-time
registry `add` (process_manager.py line 266, a set method called on the
dict of resource_monitor.py line 55) raises `AttributeError` inside the
`try`, so `"a"` enters `failed_files` at fork time with the live child
kept in the active map; when the dead child is reaped, the registry
`remove` at line 334 raises `AttributeError` uncaught and `run` aborts.
The child was forked ONCE, not `max_retries + 1 = 4` times, and no
re-submission ever happened (the retry counter counted re-polls of the
same dead child). -/
theorem run_allFail_attr_counterexample :
    pm_run ⟨fun _ => true, fun _ => true, fun _ => 0, fun _ => 1, fun _ => true⟩ 5 ["a"] =
      some (.error (PyErr.attrError, ⟨[], [], [], ["a", "a"], [("a", 3)], 1, 1, ["a"]⟩)) ∧
    (⟨[], [], [], ["a", "a"], [("a", 3)], 1, 1, ["a"]⟩ : SysState).forks.count "a" = 1 ∧
    (1 : Nat) ≠ max_retries + 1 :=
  ⟨rfl, rfl, by decide⟩

/-- C1 (amended): for every nonempty manifest of existing inputs with
all forks succeeding, `run` NEVER returns an exit code: no fuel makes
`pm_run` produce a normal `.ok` return, because the first successful
fork leaves a child in the active map and every reap of a finished
child aborts `run` with the uncaught registry `AttributeError` of
line 334.  Moreover at any such abort every forked file is already in
`failed_files` (put there at fork time by the caught registry
`AttributeError` of lines 266-273), and no file was ever forked more
than once — there is no re-submission of retryable failures. -/
theorem run_allFail_no_exit_code (env : Env) (fuel : Nat) (manifest : List String)
    (hfile : ∀ g, env.fileExists g = true)
    (hfork : ∀ p, env.forkOk p = true)
    (hne : manifest ≠ []) :
    (∀ code stf, pm_run env fuel manifest ≠ some (.ok (code, stf))) ∧
    (∀ stc, pm_run env fuel manifest = some (.error (PyErr.attrError, stc)) →
      (∀ g ∈ stc.forks, g ∈ stc.failed) ∧ ∀ g, stc.forks.count g ≤ 1) := by
  constructor
  · intro code stf h
    have hfacts := run_loop_ok_facts env fuel manifest initState code stf supInv_initState h
    have haf := run_loop_allFork_ok env hfile hfork fuel manifest initState code stf
      (by intro g hg; rcases hg with hg | hg | hg <;> simp [initState, SysState.names] at hg)
      (by intro g hg; simp [initState] at hg) h
    rcases hm : manifest with _ | ⟨g0, rest⟩
    · exact hne hm
    · have hg0 : settled stf g0 := hfacts.2.2.2.2 g0 (by rw [hm]; exact List.mem_cons_self g0 rest)
      have h1 : g0 ∈ stf.forks := haf.1 g0 hg0
      have h2 : g0 ∈ stf.names := haf.2 g0 h1
      have hn : stf.names = [] := by
        show stf.processes.map Prod.fst = []
        rw [hfacts.2.1]
        rfl
      rw [hn] at h2
      exact absurd h2 (List.not_mem_nil g0)
  · intro stc h
    have hinv := run_loop_attr_facts env fuel manifest initState stc supInv_initState h
    exact ⟨hinv.forkFailed, hinv.countLe⟩

/-- Witness for `run_allFail_no_exit_code` at the concrete one-file
always-failing run. -/
theorem run_allFail_no_exit_code_witness :
    (∀ code stf,
      pm_run ⟨fun _ => true, fun _ => true, fun _ => 0, fun _ => 1, fun _ => true⟩ 5 ["a"] ≠
        some (.ok (code, stf))) ∧
    (∀ stc,
      pm_run ⟨fun _ => true, fun _ => true, fun _ => 0, fun _ => 1, fun _ => true⟩ 5 ["a"] =
        some (.error (PyErr.attrError, stc)) →
      (∀ g ∈ stc.forks, g ∈ stc.failed) ∧ ∀ g, stc.forks.count g ≤ 1) :=
  run_allFail_no_exit_code ⟨fun _ => true, fun _ => true, fun _ => 0, fun _ => 1, fun _ => true⟩
    5 ["a"] (fun _ => rfl) (fun _ => rfl) (by simp)

/-- C2 counterexample.  The claim says a missing input becomes a
terminal failure for that file and the loop continues; instead the
`FileNotFoundError` raised by `start_process` (line 242) propagates out
of `run` (line 360 has no handler): the run aborts, the file never
enters `failed_files`, and no child is forked. -/
theorem run_missing_input_counterexample :
    pm_run ⟨fun _ => false, fun _ => true, fun _ => 0, fun _ => 1, fun _ => true⟩ 10 ["m"] =
      some (.error (PyErr.fileNotFound "m", ⟨[], [], [], [], [], 0, 1, []⟩)) ∧
    ("m" ∉ (⟨[], [], [], [], [], 0, 1, []⟩ : SysState).failed) ∧
    ("m" ∉ (⟨[], [], [], [], [], 0, 1, []⟩ : SysState).forks) :=
  ⟨rfl, by simp, by simp⟩

/-- C2 (amended): when `run` raises `FileNotFoundError` for a file,
that file's input did not exist at `start_process` time, the file is
NOT in `failed_files`, no child was ever forked for it, and the run
aborts (the exception propagates; the remaining manifest entries are
not processed). -/
theorem run_missing_input_raises (env : Env) (fuel : Nat) (manifest : List String)
    (f : String) (ste : SysState)
    (h : pm_run env fuel manifest = some (.error (PyErr.fileNotFound f, ste))) :
    env.fileExists f = false ∧ f ∉ ste.failed ∧ f ∉ ste.forks :=
  run_loop_error_facts env fuel manifest initState f ste supInv_initState h

/-- Witness for `run_missing_input_raises` at the concrete one-file
run over a missing input. -/
theorem run_missing_input_raises_witness :
    (fun (_ : String) => false) "m" = false ∧
    ("m" ∉ (⟨[], [], [], [], [], 0, 1, []⟩ : SysState).failed) ∧
    ("m" ∉ (⟨[], [], [], [], [], 0, 1, []⟩ : SysState).forks) :=
  run_missing_input_raises ⟨fun _ => false, fun _ => true, fun _ => 0, fun _ => 1, fun _ => true⟩
    10 ["m"] "m" ⟨[], [], [], [], [], 0, 1, []⟩ rfl

/-- C4: at normal termination of the work loop, the exit code is 0 iff
`failed_files` is empty and every manifest entry is in
`completed_files`; otherwise it is 1.  (The code's `return 1 if
self.failed_files else 0` coincides with the claim because a normally
terminating run settles every manifest entry.) -/
theorem run_exit_code_iff (env : Env) (fuel : Nat) (manifest : List String)
    (code : Int) (stf : SysState)
    (h : pm_run env fuel manifest = some (.ok (code, stf))) :
    (code = 0 ↔ stf.failed = [] ∧ ∀ g ∈ manifest, g ∈ stf.completed) := by
  have hfacts := run_loop_ok_facts env fuel manifest initState code stf supInv_initState h
  have hcov : ∀ g ∈ manifest, g ∈ stf.completed ∨ g ∈ stf.failed := by
    intro g hg
    rcases hfacts.2.2.2.2 g hg with h1 | h1 | h1
    · have hn : stf.names = [] := by
        show stf.processes.map Prod.fst = []
        rw [hfacts.2.1]
        rfl
      rw [hn] at h1
      exact absurd h1 (List.not_mem_nil g)
    · exact Or.inl h1
    · exact Or.inr h1
  constructor
  · intro h0
    have hfail : stf.failed = [] := by
      by_contra hne2
      rw [hfacts.2.2.1, if_neg hne2] at h0
      exact absurd h0 (by decide)
    refine ⟨hfail, fun g hg => ?_⟩
    rcases hcov g hg with h2 | h2
    · exact h2
    · rw [hfail] at h2
      exact absurd h2 (List.not_mem_nil g)
  · intro hc
    rw [hfacts.2.2.1, if_pos hc.1]

/-- Witness for `run_exit_code_iff` at a concrete one-file run whose
fork fails, so the file is a terminal failure and the exit code is 1. -/
theorem run_exit_code_iff_witness :
    ((1 : Int) = 0 ↔
      (⟨[], [], [], ["a"], [], 1, 1, []⟩ : SysState).failed = [] ∧
      ∀ g ∈ (["a"] : List String),
        g ∈ (⟨[], [], [], ["a"], [], 1, 1, []⟩ : SysState).completed) :=
  run_exit_code_iff ⟨fun _ => true, fun _ => false, fun _ => 0, fun _ => 0, fun _ => true⟩
    3 ["a"] 1 ⟨[], [], [], ["a"], [], 1, 1, []⟩ rfl

theorem calibrate_early_return (ce : CalibEnv) (st : SysState) (f : String)
    (r : CalibResult) (h : calibrate ce st f = .ok r) :
    r.probeTerminated = false ∧ r.probeKilled = false := by
  rcases hsp : start_process (calibEnvToEnv ce) st f with e | ⟨o, st1⟩
  · simp only [calibrate, hsp] at h
    exact Except.noConfusion h
  · have ho : o = none := start_process_none (calibEnvToEnv ce) st f (o, st1) hsp
    subst ho
    simp only [calibrate, hsp] at h
    injection h with h2
    rw [← h2]
    exact ⟨rfl, rfl⟩

/-- C9 counterexample.  A fresh supervisor, the probe input present,
the fork succeeding: `_calibrate_resource_usage` takes the `if not
process` early return at lines 59-61 (the probe's `start_process`
returned `None` because the registry `add` raised), so the probe child
is NEVER terminated (`probeTerminated = false`), the probe file stays
in the active map with its live child, and it sits in `failed_files` —
both contradicting the claim that the probe is terminated and absent
from the active map and both outcome sets. -/
theorem calibrate_probe_leak_counterexample :
    calibrate ⟨true, true, false, true, false⟩ initState "p" =
      .ok ⟨⟨[("p", ⟨0, 0⟩)], [], [], ["p"], [], 1, 0, ["p"]⟩, false, false⟩ ∧
    "p" ∈ (⟨[("p", ⟨0, 0⟩)], [], [], ["p"], [], 1, 0, ["p"]⟩ : SysState).names ∧
    "p" ∈ (⟨[("p", ⟨0, 0⟩)], [], [], ["p"], [], 1, 0, ["p"]⟩ : SysState).failed :=
  ⟨rfl, by simp [SysState.names], by simp⟩

/-- C9 (amended): calibration never reaches its cleanup block — every
normal return has `probeTerminated = false` and `probeKilled = false`,
because the probe's `start_process` always returns `None` (registry
`add` raises) and calibration exits through the early return at lines
59-61.  When the probe input is fresh, present, and the fork itself
succeeds, the returned state is `forkAttrState st f`: the probe file is
in the active map (with a live, never-terminated child) AND in
`failed_files`, so the Work Loop will not re-queue it. -/
theorem calibrate_probe_leak (ce : CalibEnv) (st : SysState) (f : String)
    (hns : ¬ settled st f) (hex : ce.fileExists = true) (hfk : ce.forkOk = true) :
    (∀ r, calibrate ce st f = .ok r →
      r.probeTerminated = false ∧ r.probeKilled = false) ∧
    calibrate ce st f = .ok ⟨forkAttrState st f, false, false⟩ ∧
    f ∈ (forkAttrState st f).names ∧ f ∈ (forkAttrState st f).failed := by
  have hsp : start_process (calibEnvToEnv ce) st f = .ok (none, forkAttrState st f) :=
    start_process_forkAttr (calibEnvToEnv ce) st f hns hex hfk
  refine ⟨fun r h => calibrate_early_return ce st f r h, ?_, ?_, ?_⟩
  · simp only [calibrate, hsp]
  · rw [forkAttrState_names]
    exact List.mem_append.mpr (Or.inr (by simp))
  · show f ∈ st.failed ++ [f]
    exact List.mem_append.mpr (Or.inr (by simp))

/-- Witness for `calibrate_probe_leak` at a fresh supervisor state and
a probe whose input exists and whose fork succeeds. -/
theorem calibrate_probe_leak_witness :
    ((∀ r, calibrate ⟨true, true, false, true, false⟩ initState "p" = .ok r →
      r.probeTerminated = false ∧ r.probeKilled = false) ∧
    calibrate ⟨true, true, false, true, false⟩ initState "p" =
      .ok ⟨forkAttrState initState "p", false, false⟩ ∧
    "p" ∈ (forkAttrState initState "p").names ∧
    "p" ∈ (forkAttrState initState "p").failed) :=
  calibrate_probe_leak ⟨true, true, false, true, false⟩ initState "p"
    (by intro hs; rcases hs with hs | hs | hs <;> simp [initState, SysState.names] at hs)
    rfl rfl

/-- C5: in every monitor state reachable from `__init__` by refreshes,
throttle activations, recoveries, and child (un)registrations,
`throttled = false` implies the effective cap equals
`original_max_processes`.  The claim also ranges over "after
calibration has run", but calibration cannot touch the monitor: the
threshold update of process_manager.py lines 156-162 is dead code,
since `_calibrate_resource_usage` always exits through the early
return at line 61 (`calibrate_early_return`), so the events above are
the only monitor transitions a run can take and the invariant holds in
every reachable state. -/
theorem monitor_throttle_invariant (cpu memory disk : ℚ) (mp : ℕ) (mon : Monitor)
    (h : Relation.ReflTransGen MonStep (initMonitor cpu memory disk mp) mon)
    (hthr : mon.throttled = false) :
    mon.max_processes = mon.original_max_processes := by
  suffices hinv : mon.original_max_processes = mp ∧
      (mon.throttled = false → mon.max_processes = mp) by
    rw [hinv.2 hthr, hinv.1]
  clear hthr
  induction h with
  | refl => exact ⟨rfl, fun _ => rfl⟩
  | tail hsteps hstep ih =>
    cases hstep with
    | refresh met drops =>
      simp only [update_process_metrics]
      rw [if_neg (by simp)]
      split_ifs with h1 h2
      · exact ⟨ih.1, fun hc => absurd hc (by simp [apply_throttling])⟩
      · exact ⟨ih.1, fun _ => ih.1⟩
      · exact ⟨ih.1, fun hc => ih.2 hc⟩
    | registerChild => exact ⟨ih.1, ih.2⟩
    | unregisterChild => exact ⟨ih.1, ih.2⟩

/-- Witness for `monitor_throttle_invariant` after registering one
child from a freshly constructed monitor. -/
theorem monitor_throttle_invariant_witness :
    ({ initMonitor 1 1 1 2 with active := 1 } : Monitor).max_processes =
      ({ initMonitor 1 1 1 2 with active := 1 } : Monitor).original_max_processes :=
  monitor_throttle_invariant 1 1 1 2 { initMonitor 1 1 1 2 with active := 1 }
    (Relation.ReflTransGen.single (MonStep.registerChild (initMonitor 1 1 1 2))) rfl
